import Mathlib

/-!
# HFS path conversion — shallow embedding

A shallow embedding of `src/lib.rs` of the `hfs_paths` crate.  The crate
converts legacy HFS paths (colon-separated, starting with a volume name)
into POSIX paths by resolving the volume name against the `/Volumes`
mount directory.

Strings are modelled as `List Char`.  The filesystem is modelled as the
observable outcomes of the system calls the code performs: the result of
`fs::read_dir("/Volumes")`, and per entry the results of `file_type()`
and `fs::read_link`.
-/

/-- An operating-system error code, as carried by a failed filesystem call. -/
abbrev OsError := Nat

deriving instance DecidableEq for Except

/-- One entry of the mount directory as observed by `read_dir`: its file
name, the outcome of `file_type()` (reduced to whether the entry is a
symbolic link), and the outcome of `fs::read_link` on its path. -/
structure MountEntry where
  name : List Char
  fileType : Except OsError Bool
  linkTarget : Except OsError (List Char)
deriving DecidableEq

/-- The observable state of the mount registry: the outcome of
`fs::read_dir("/Volumes")`, whose items may themselves be errors. -/
structure Volumes where
  readDir : Except OsError (List (Except OsError MountEntry))
deriving DecidableEq

/-- The error type of the crate (`quick_error!` enum `Error`). -/
inductive Error where
  | InvalidHfsPath
  | VolumeNotFound (volume : List Char)
  | Io (err : OsError)
deriving DecidableEq

/-- `segment.replace('/', ":")`: every `/` becomes `:`, every other
character is kept in place. -/
def escape (s : List Char) : List Char :=
  s.map fun c => if c = '/' then ':' else c

/-- Unix `PathBuf::join`: an absolute argument replaces the whole path;
otherwise the argument is appended, with a `/` inserted unless the base is
empty or already ends in `/`. -/
def pathJoin (base seg : List Char) : List Char :=
  if seg.head? = some '/' then seg
  else if base = [] then seg
  else if base.getLast? = some '/' then base ++ seg
  else base ++ '/' :: seg

/-- `path.split(':')`: split on every colon, preserving empty segments.
Always yields at least one segment (the empty string yields one empty
segment), matching Rust `str::split` with a `char` pattern. -/
def hfsSplit : List Char → List (List Char)
  | [] => [[]]
  | c :: rest =>
    if c = ':' then [] :: hfsSplit rest
    else
      match hfsSplit rest with
      | [] => [[c]]
      | s :: ss => (c :: s) :: ss

/-- The fixed mount directory scanned by `find_volume`. -/
def mountDir : List Char := '/' :: 'V' :: 'o' :: 'l' :: 'u' :: 'm' :: 'e' :: 's' :: []

/-- The `for entry in fs::read_dir("/Volumes")?` loop of `find_volume`:
each item of the listing may itself be an error (`let entry = entry?;`);
on the first entry whose name equals `name`, a symlink is dereferenced one
level (`fs::read_link(entry.path())?`) and its target returned as is,
while a non-symlink entry yields `entry.path()`. -/
def findVolumeLoop (name : List Char) :
    List (Except OsError MountEntry) → Except Error (List Char)
  | [] => .error (.VolumeNotFound name)
  | .error e :: _ => .error (.Io e)
  | .ok entry :: rest =>
    if entry.name = name then
      match entry.fileType with
      | .error e => .error (.Io e)
      | .ok true =>
        match entry.linkTarget with
        | .error e => .error (.Io e)
        | .ok dest => .ok dest
      | .ok false => .ok (pathJoin mountDir entry.name)
    else findVolumeLoop name rest

/-- `find_volume`: looks for a volume with the provided name in the mount
directory and returns the absolute path to its root. -/
def find_volume (vols : Volumes) (name : List Char) : Except Error (List Char) :=
  match vols.readDir with
  | .error e => .error (.Io e)
  | .ok entries => findVolumeLoop name entries

/-- The composer loop of `convert_path`: starting from the resolved volume
root, append each remaining segment, escaped, via `PathBuf::join`. -/
def appendSegments (root : List Char) (segs : List (List Char)) : List Char :=
  segs.foldl (fun p seg => pathJoin p (escape seg)) root

/-- `convert_path`: converts the provided HFS path into a standard POSIX
path.  Splits on `:`, escapes the first segment and resolves it as the
volume name, then appends the remaining segments (escaped) to the
resolved volume root. -/
def convert_path (vols : Volumes) (path : List Char) : Except Error (List Char) :=
  match hfsSplit path with
  | [] => .error .InvalidHfsPath
  | volumeName :: segments =>
    match find_volume vols (escape volumeName) with
    | .error e => .error e
    | .ok root => .ok (appendSegments root segments)

/-! ## Basic lemmas -/

theorem hfsSplit_ne_nil (s : List Char) : hfsSplit s ≠ [] := by
  induction s with
  | nil => simp [hfsSplit]
  | cons c rest ih =>
    simp only [hfsSplit]
    split
    · simp
    · cases h : hfsSplit rest with
      | nil => simp
      | cons s ss => simp

theorem hfsSplit_no_colon (s : List Char) (h : ':' ∉ s) : hfsSplit s = [s] := by
  induction s with
  | nil => rfl
  | cons c rest ih =>
    simp only [List.mem_cons, not_or] at h
    simp only [hfsSplit, if_neg (Ne.symm h.1), ih h.2]

theorem findVolumeLoop_skip (name : List Char) (pre rest : List (Except OsError MountEntry))
    (h : ∀ e ∈ pre, ∃ m, e = .ok m ∧ m.name ≠ name) :
    findVolumeLoop name (pre ++ rest) = findVolumeLoop name rest := by
  induction pre with
  | nil => rfl
  | cons e pre ih =>
    obtain ⟨m, rfl, hm⟩ := h e (List.mem_cons_self e pre)
    simp only [List.cons_append, findVolumeLoop, if_neg hm]
    exact ih fun e he => h e (List.mem_cons_of_mem _ he)

theorem escape_head_ne_slash (s : List Char) : (escape s).head? ≠ some '/' := by
  cases s with
  | nil => simp [escape]
  | cons c cs =>
    simp only [escape, List.map_cons, List.head?_cons]
    intro h
    rw [Option.some.injEq] at h
    split at h
    · exact absurd h (by decide)
    case isFalse hne => exact hne h

theorem slash_not_mem_escape (s : List Char) : '/' ∉ escape s := by
  intro hmem
  rw [escape, List.mem_map] at hmem
  obtain ⟨c, hc, heq⟩ := hmem
  split at heq
  case isTrue => exact absurd heq (by decide)
  case isFalse hne => exact hne heq

theorem pathJoin_escape_pref (base s : List Char) : base <+: pathJoin base (escape s) := by
  unfold pathJoin
  split
  · exact absurd (by assumption) (escape_head_ne_slash s)
  · split
    case isTrue h => rw [h]; exact ⟨escape s, rfl⟩
    case isFalse hne =>
      split
      · exact ⟨escape s, rfl⟩
      · exact ⟨'/' :: escape s, rfl⟩

theorem appendSegments_pref (segs : List (List Char)) (base : List Char) :
    base <+: appendSegments base segs := by
  induction segs generalizing base with
  | nil => exact ⟨[], List.append_nil base⟩
  | cons s ss ih =>
    exact List.IsPrefix.trans (pathJoin_escape_pref base s) (ih (pathJoin base (escape s)))

theorem head?_eq_of_pref {l₁ l₂ : List Char} (h : l₁ <+: l₂) {c : Char}
    (hc : l₁.head? = some c) : l₂.head? = some c := by
  obtain ⟨t, rfl⟩ := h
  cases l₁ with
  | nil => simp at hc
  | cons a l => simpa using hc

theorem pathJoin_mountDir_head (seg : List Char) :
    (pathJoin mountDir seg).head? = some '/' := by
  unfold pathJoin
  split
  · assumption
  · split
    case isTrue h => exact absurd h (by decide)
    case isFalse hne =>
      split
      · rfl
      · rfl

theorem findVolumeLoop_ne_invalid (name : List Char)
    (entries : List (Except OsError MountEntry)) :
    findVolumeLoop name entries ≠ .error .InvalidHfsPath := by
  induction entries with
  | nil => simp [findVolumeLoop]
  | cons e rest ih =>
    cases e with
    | error e => simp [findVolumeLoop]
    | ok m =>
      simp only [findVolumeLoop]
      split
      · rcases hft : m.fileType with e | b
        · simp
        · cases b
          · simp
          · rcases hlt : m.linkTarget with e | dest <;> simp
      · exact ih

theorem find_volume_ne_invalid (vols : Volumes) (name : List Char) :
    find_volume vols name ≠ .error .InvalidHfsPath := by
  unfold find_volume
  rcases vols.readDir with e | entries
  · simp
  · exact findVolumeLoop_ne_invalid name entries

theorem convert_path_error_prop (vols : Volumes) (path : List Char) (err : Error)
    (h : find_volume vols (escape ((hfsSplit path).headI)) = .error err) :
    convert_path vols path = .error err := by
  cases hsp : hfsSplit path with
  | nil => exact absurd hsp (hfsSplit_ne_nil path)
  | cons v segs =>
    rw [hsp, List.headI] at h
    simp only [convert_path, hsp, h]

theorem findVolumeLoop_vnf_name (name v : List Char)
    (entries : List (Except OsError MountEntry))
    (h : findVolumeLoop name entries = .error (.VolumeNotFound v)) : v = name := by
  induction entries with
  | nil =>
    simp only [findVolumeLoop, Except.error.injEq, Error.VolumeNotFound.injEq] at h
    exact h.symm
  | cons e rest ih =>
    cases e with
    | error e => simp [findVolumeLoop] at h
    | ok m =>
      simp only [findVolumeLoop] at h
      split at h
      · rcases hft : m.fileType with e | b <;> rw [hft] at h
        · simp at h
        · cases b
          · simp at h
          · rcases hlt : m.linkTarget with e | dest <;> rw [hlt] at h <;> simp at h
      · exact ih h

theorem findVolumeLoop_not_found (name : List Char)
    (entries : List (Except OsError MountEntry))
    (hok : ∀ e ∈ entries, ∃ m, e = .ok m) :
    findVolumeLoop name entries = .error (.VolumeNotFound name) ↔
      ∀ m, Except.ok m ∈ entries → m.name ≠ name := by
  induction entries with
  | nil => simp [findVolumeLoop]
  | cons e rest ih =>
    obtain ⟨m, rfl⟩ := hok e (List.mem_cons_self e rest)
    simp only [findVolumeLoop]
    by_cases hm : m.name = name
    · rw [if_pos hm]
      constructor
      · intro h
        exfalso
        rcases hft : m.fileType with e | b <;> rw [hft] at h
        · simp at h
        · cases b
          · simp at h
          · rcases hlt : m.linkTarget with e | dest <;> rw [hlt] at h <;> simp at h
      · intro h
        exact absurd hm (h m (List.mem_cons_self _ _))
    · rw [if_neg hm, ih (fun e he => hok e (List.mem_cons_of_mem _ he))]
      constructor
      · intro h m' hm'
        rcases List.mem_cons.mp hm' with h1 | h1
        · injection h1 with h1
          rw [← h1] at hm
          exact hm
        · exact h m' h1
      · intro h m' h1
        exact h m' (List.mem_cons_of_mem _ h1)

/-! ## Claim theorems -/

/-- C1: for the input `"BOOTCAMP:Intel:Logs:IntelGFX.log"`, when the mount
registry contains a non-symlink entry named `"BOOTCAMP"` (whose path under
the mount directory is `/Volumes/BOOTCAMP`), and any entries listed before
it are well-read and named otherwise, `convert_path` succeeds and returns
exactly `/Volumes/BOOTCAMP/Intel/Logs/IntelGFX.log`. -/
theorem C1_bootcamp_scenario (vols : Volumes)
    (pre post : List (Except OsError MountEntry)) (lt : Except OsError (List Char))
    (hrd : vols.readDir = .ok (pre ++ .ok ⟨"BOOTCAMP".data, .ok false, lt⟩ :: post))
    (hpre : ∀ x ∈ pre, ∃ m, x = .ok m ∧ m.name ≠ "BOOTCAMP".data) :
    convert_path vols "BOOTCAMP:Intel:Logs:IntelGFX.log".data
      = .ok "/Volumes/BOOTCAMP/Intel/Logs/IntelGFX.log".data := by
  have hsp : hfsSplit "BOOTCAMP:Intel:Logs:IntelGFX.log".data =
      ["BOOTCAMP".data, "Intel".data, "Logs".data, "IntelGFX.log".data] := by decide
  have hesc : escape "BOOTCAMP".data = "BOOTCAMP".data := by decide
  have hfv : find_volume vols "BOOTCAMP".data = .ok (pathJoin mountDir "BOOTCAMP".data) := by
    rw [find_volume, hrd]
    show findVolumeLoop "BOOTCAMP".data
        (pre ++ .ok ⟨"BOOTCAMP".data, .ok false, lt⟩ :: post) = _
    rw [findVolumeLoop_skip _ pre _ hpre]
    simp [findVolumeLoop]
  simp only [convert_path, hsp, hesc, hfv]
  decide

/-- Witness for C1 at a concrete registry holding exactly the
`BOOTCAMP` entry. -/
theorem C1_bootcamp_scenario_witness :
    convert_path ⟨.ok [.ok ⟨"BOOTCAMP".data, .ok false, .ok []⟩]⟩
      "BOOTCAMP:Intel:Logs:IntelGFX.log".data
      = .ok "/Volumes/BOOTCAMP/Intel/Logs/IntelGFX.log".data :=
  C1_bootcamp_scenario ⟨.ok [.ok ⟨"BOOTCAMP".data, .ok false, .ok []⟩]⟩ [] [] (.ok [])
    rfl (fun x hx => absurd hx (List.not_mem_nil x))

/-- C3: for an input containing no legacy separator, `convert_path` resolves
the escaped full string as the volume name and returns exactly whatever the
resolver produced — on success the resolved volume root with nothing
appended. -/
theorem C3_no_separator (vols : Volumes) (path : List Char) (hnc : ':' ∉ path) :
    convert_path vols path = find_volume vols (escape path) := by
  simp only [convert_path, hfsSplit_no_colon path hnc]
  rcases hf : find_volume vols (escape path) with e | root
  · rfl
  · simp [appendSegments]

/-- Witness for C3: the volume-only input `"Macintosh SSD"` resolves to the
volume root with no appended components. -/
theorem C3_no_separator_witness :
    convert_path ⟨.ok [.ok ⟨"Macintosh SSD".data, .ok false, .ok []⟩]⟩
        "Macintosh SSD".data
      = find_volume ⟨.ok [.ok ⟨"Macintosh SSD".data, .ok false, .ok []⟩]⟩
        (escape "Macintosh SSD".data) :=
  C3_no_separator ⟨.ok [.ok ⟨"Macintosh SSD".data, .ok false, .ok []⟩]⟩
    "Macintosh SSD".data (by decide)

/-- C4: when the first mount-registry entry whose name equals the requested
name is a symbolic link, the resolver returns the link's immediate target
verbatim — the target is arbitrary, in particular it may itself name a
symbolic link, and is not dereferenced further; when that entry is not a
symlink, the resolver returns the entry's own path under the mount
directory. -/
theorem C4_symlink_one_level (vols : Volumes) (name dest : List Char)
    (pre post : List (Except OsError MountEntry)) (m : MountEntry)
    (hrd : vols.readDir = .ok (pre ++ .ok m :: post))
    (hpre : ∀ x ∈ pre, ∃ m', x = .ok m' ∧ m'.name ≠ name)
    (hname : m.name = name)
    (hcase : (m.fileType = .ok true ∧ m.linkTarget = .ok dest) ∨
             (m.fileType = .ok false ∧ dest = pathJoin mountDir name)) :
    find_volume vols name = .ok dest := by
  rw [find_volume, hrd]
  show findVolumeLoop name (pre ++ .ok m :: post) = _
  rw [findVolumeLoop_skip _ pre _ hpre]
  simp only [findVolumeLoop, if_pos hname]
  rcases hcase with ⟨hft, hlt⟩ | ⟨hft, hdest⟩
  · rw [hft, hlt]
  · rw [hft, hdest, hname]

/-- Witness for C4: a symlink entry whose target is itself the name of
another symlink entry is resolved to that target verbatim. -/
theorem C4_symlink_one_level_witness :
    find_volume ⟨.ok [.ok ⟨"A".data, .ok true, .ok "/Volumes/B".data⟩,
                      .ok ⟨"B".data, .ok true, .ok "/x".data⟩]⟩ "A".data
      = .ok "/Volumes/B".data :=
  C4_symlink_one_level ⟨.ok [.ok ⟨"A".data, .ok true, .ok "/Volumes/B".data⟩,
                             .ok ⟨"B".data, .ok true, .ok "/x".data⟩]⟩
    "A".data "/Volumes/B".data []
    [.ok ⟨"B".data, .ok true, .ok "/x".data⟩] ⟨"A".data, .ok true, .ok "/Volumes/B".data⟩
    rfl (fun x hx => absurd hx (List.not_mem_nil x)) rfl (Or.inl ⟨rfl, rfl⟩)

/-- C7: `convert_path` is deterministic — two calls with identical
mount-registry observations (same directory listing outcome, hence same
entries, names, file types and symlink targets) produce identical results,
success or failure. -/
theorem C7_deterministic (vols₁ vols₂ : Volumes) (path : List Char)
    (h : vols₁.readDir = vols₂.readDir) :
    convert_path vols₁ path = convert_path vols₂ path := by
  cases vols₁
  cases vols₂
  cases h
  rfl

/-- Witness for C7 at a concrete registry and input. -/
theorem C7_deterministic_witness :
    convert_path ⟨.ok [.ok ⟨"A".data, .ok false, .ok []⟩]⟩ "A:b".data
      = convert_path ⟨.ok [.ok ⟨"A".data, .ok false, .ok []⟩]⟩ "A:b".data :=
  C7_deterministic ⟨.ok [.ok ⟨"A".data, .ok false, .ok []⟩]⟩
    ⟨.ok [.ok ⟨"A".data, .ok false, .ok []⟩]⟩ "A:b".data rfl

/-- C9: splitting on the legacy separator always yields at least one
segment, so `convert_path` never returns the `InvalidHfsPath` error, for
any input and any mount-registry state. -/
theorem C9_invalid_unreachable (vols : Volumes) (path : List Char) :
    hfsSplit path ≠ [] ∧ convert_path vols path ≠ .error .InvalidHfsPath := by
  refine ⟨hfsSplit_ne_nil path, ?_⟩
  cases hsp : hfsSplit path with
  | nil => exact absurd hsp (hfsSplit_ne_nil path)
  | cons v segs =>
    simp only [convert_path, hsp]
    rcases hf : find_volume vols (escape v) with e | root
    · intro hc
      injection hc with hc
      rw [hc] at hf
      exact find_volume_ne_invalid vols (escape v) hf
    · simp

/-- C2: on a successful conversion the output is the resolved volume root
with each remaining raw segment appended after escaping; every escaped
segment has the same length as its raw segment, carries at every position
the raw character with a literal `/` replaced by `:`, and contains no
literal `/`. -/
theorem C2_component_escape (vols : Volumes) (path out v root seg : List Char)
    (segs : List (List Char)) (i : Nat)
    (hok : convert_path vols path = .ok out)
    (hsp : hfsSplit path = v :: segs)
    (hroot : find_volume vols (escape v) = .ok root)
    (hseg : seg ∈ segs) :
    out = appendSegments root segs ∧
    (escape seg).length = seg.length ∧
    (escape seg).get? i = ((seg.get? i).map fun c => if c = '/' then ':' else c) ∧
    '/' ∉ escape seg := by
  refine ⟨?_, ?_, ?_, slash_not_mem_escape seg⟩
  · simp only [convert_path, hsp, hroot] at hok
    injection hok with hok
    exact hok.symm
  · simp [escape]
  · simp [escape, List.get?_map]

/-- Witness for C2 at the input `"A:b/c"`: the segment `b/c` becomes the
component `b:c` of `/Volumes/A/b:c`, with the colon at position 1. -/
theorem C2_component_escape_witness :
    "/Volumes/A/b:c".data = appendSegments "/Volumes/A".data ["b/c".data] ∧
    (escape "b/c".data).length = ("b/c".data).length ∧
    (escape "b/c".data).get? 1
      = ((("b/c".data).get? 1).map fun c => if c = '/' then ':' else c) ∧
    '/' ∉ escape "b/c".data :=
  C2_component_escape ⟨.ok [.ok ⟨"A".data, .ok false, .ok []⟩]⟩ "A:b/c".data
    "/Volumes/A/b:c".data "A".data "/Volumes/A".data "b/c".data ["b/c".data] 1
    (by decide) (by decide) (by decide) (by decide)

/-- C5: with a readable directory listing whose items are all well-read,
resolution fails with `VolumeNotFound` exactly when no entry's name equals
the requested name; a `VolumeNotFound` error always carries the exact
requested name; and when the registry has no match for the escaped first
segment of an input, `convert_path` fails with `VolumeNotFound` carrying
that escaped first segment. -/
theorem C5_volume_not_found (vols : Volumes) (name path : List Char)
    (entries : List (Except OsError MountEntry))
    (hrd : vols.readDir = .ok entries)
    (hok : ∀ e ∈ entries, ∃ m, e = .ok m) :
    (find_volume vols name = .error (.VolumeNotFound name) ↔
      ∀ m, Except.ok m ∈ entries → m.name ≠ name) ∧
    (∀ v, find_volume vols name = .error (.VolumeNotFound v) → v = name) ∧
    (name = escape ((hfsSplit path).headI) →
      (∀ m, Except.ok m ∈ entries → m.name ≠ name) →
      convert_path vols path = .error (.VolumeNotFound name)) := by
  have hfv : find_volume vols name = findVolumeLoop name entries := by
    rw [find_volume, hrd]
  refine ⟨?_, ?_, ?_⟩
  · rw [hfv]
    exact findVolumeLoop_not_found name entries hok
  · intro v hv
    rw [hfv] at hv
    exact findVolumeLoop_vnf_name name v entries hv
  · intro hname hnomatch
    have h1 : find_volume vols name = .error (.VolumeNotFound name) := by
      rw [hfv]
      exact (findVolumeLoop_not_found name entries hok).mpr hnomatch
    rw [hname]
    exact convert_path_error_prop vols path _ (hname ▸ h1)

/-- Witness for C5: the name `"Ghost"` matches no entry of a registry
holding only `"A"`, so resolution fails with `VolumeNotFound "Ghost"`. -/
theorem C5_volume_not_found_witness :
    find_volume ⟨.ok [.ok ⟨"A".data, .ok false, .ok []⟩]⟩ "Ghost".data
      = .error (.VolumeNotFound "Ghost".data) :=
  ((C5_volume_not_found ⟨.ok [.ok ⟨"A".data, .ok false, .ok []⟩]⟩ "Ghost".data
      "Ghost:file".data [.ok ⟨"A".data, .ok false, .ok []⟩] rfl
      (fun e he => ⟨⟨"A".data, .ok false, .ok []⟩, List.mem_singleton.mp he⟩)).1).mpr
    (by
      intro m hm
      rw [List.mem_singleton] at hm
      injection hm with hm
      rw [hm]
      decide)

/-- C6: every operating-system failure — enumerating the mount directory,
reading one listing item, reading a matching entry's metadata, or reading
its symlink target — makes the resolver fail with the wrapped system
error, and `convert_path` aborts with exactly that `Io` failure. -/
theorem C6_io_failure (vols : Volumes) (name path : List Char) (e : OsError)
    (hname : name = escape ((hfsSplit path).headI))
    (hfail :
      vols.readDir = .error e ∨
      (∃ pre rest, vols.readDir = .ok (pre ++ .error e :: rest) ∧
        ∀ x ∈ pre, ∃ m, x = .ok m ∧ m.name ≠ name) ∨
      (∃ pre post m, vols.readDir = .ok (pre ++ .ok m :: post) ∧
        (∀ x ∈ pre, ∃ m', x = .ok m' ∧ m'.name ≠ name) ∧ m.name = name ∧
        m.fileType = .error e) ∨
      (∃ pre post m, vols.readDir = .ok (pre ++ .ok m :: post) ∧
        (∀ x ∈ pre, ∃ m', x = .ok m' ∧ m'.name ≠ name) ∧ m.name = name ∧
        m.fileType = .ok true ∧ m.linkTarget = .error e)) :
    find_volume vols name = .error (.Io e) ∧
    convert_path vols path = .error (.Io e) := by
  have hfv : find_volume vols name = .error (.Io e) := by
    rcases hfail with h | ⟨pre, rest, hrd, hpre⟩ | ⟨pre, post, m, hrd, hpre, hnm, hft⟩ |
      ⟨pre, post, m, hrd, hpre, hnm, hft, hlt⟩
    · rw [find_volume, h]
    · rw [find_volume, hrd]
      show findVolumeLoop name (pre ++ .error e :: rest) = _
      rw [findVolumeLoop_skip _ pre _ hpre]
      rfl
    · rw [find_volume, hrd]
      show findVolumeLoop name (pre ++ .ok m :: post) = _
      rw [findVolumeLoop_skip _ pre _ hpre]
      simp only [findVolumeLoop, if_pos hnm, hft]
    · rw [find_volume, hrd]
      show findVolumeLoop name (pre ++ .ok m :: post) = _
      rw [findVolumeLoop_skip _ pre _ hpre]
      simp only [findVolumeLoop, if_pos hnm, hft, hlt]
  exact ⟨hfv, convert_path_error_prop vols path _ (hname ▸ hfv)⟩

/-- Witness for C6: a failing directory enumeration (system error 7)
aborts both the resolver and the whole conversion with `Io 7`. -/
theorem C6_io_failure_witness :
    find_volume ⟨.error 7⟩ "X".data = .error (.Io 7) ∧
    convert_path ⟨.error 7⟩ "X".data = .error (.Io 7) :=
  C6_io_failure ⟨.error 7⟩ "X".data "X".data 7 (by decide) (Or.inl rfl)

/-- C8 counterexample: with a mount entry `"V"` that is a symbolic link
whose stored target is the relative path `rel`, the conversion of `"V"`
succeeds, yet the returned path does not begin with `/` — it is not an
absolute path, contradicting the claim that every successful conversion
yields an absolute one. -/
theorem C8_counterexample :
    convert_path ⟨.ok [.ok ⟨"V".data, .ok true, .ok "rel".data⟩]⟩ "V".data
      = .ok "rel".data ∧ ("rel".data).head? ≠ some '/' := by
  decide

/-- C8 amended: a successful conversion yields a path beginning with the
separator whenever the resolved volume root does; and the root produced
for a non-symlink entry always does, since it lies under the mount
directory.  (For a symlink entry the root is the stored target verbatim,
so the result is absolute exactly when that target is.) -/
theorem C8_amended_absolute (vols : Volumes) (path out root seg : List Char)
    (hok : convert_path vols path = .ok out)
    (hroot : find_volume vols (escape ((hfsSplit path).headI)) = .ok root)
    (habs : root.head? = some '/') :
    out.head? = some '/' ∧ (pathJoin mountDir seg).head? = some '/' := by
  refine ⟨?_, pathJoin_mountDir_head seg⟩
  cases hsp : hfsSplit path with
  | nil => exact absurd hsp (hfsSplit_ne_nil path)
  | cons v segs =>
    rw [hsp, List.headI] at hroot
    simp only [convert_path, hsp, hroot] at hok
    injection hok with hok
    rw [← hok]
    exact head?_eq_of_pref (appendSegments_pref segs root) habs

/-- Witness for the amended C8 at a non-symlink registry entry. -/
theorem C8_amended_absolute_witness :
    ("/Volumes/A/b".data).head? = some '/' ∧
    (pathJoin mountDir "x".data).head? = some '/' :=
  C8_amended_absolute ⟨.ok [.ok ⟨"A".data, .ok false, .ok []⟩]⟩ "A:b".data
    "/Volumes/A/b".data "/Volumes/A".data "x".data (by decide) (by decide) (by decide)

/-- C10: an escaped segment contains no `/`; joining it onto a nonempty
base therefore concatenates — the base, at most one separator, then the
escaped segment — never discarding the accumulated path, and the starting
root is a prefix of the fully composed path. -/
theorem C10_join_never_discards (root base seg : List Char) (segs : List (List Char))
    (hbase : base ≠ []) :
    '/' ∉ escape seg ∧
    pathJoin base (escape seg) =
      base ++ (if base.getLast? = some '/' then [] else ['/']) ++ escape seg ∧
    root <+: appendSegments root segs := by
  refine ⟨slash_not_mem_escape seg, ?_, appendSegments_pref segs root⟩
  by_cases hl : base.getLast? = some '/'
  · rw [if_pos hl, List.append_nil, pathJoin, if_neg (escape_head_ne_slash seg),
      if_neg hbase, if_pos hl]
  · rw [if_neg hl, pathJoin, if_neg (escape_head_ne_slash seg), if_neg hbase,
      if_neg hl]
    simp

/-- Witness for C10 at the base `/Volumes` and the segment `a/b`. -/
theorem C10_join_never_discards_witness :
    '/' ∉ escape "a/b".data ∧
    pathJoin "/Volumes".data (escape "a/b".data) =
      "/Volumes".data ++ (if ("/Volumes".data).getLast? = some '/' then [] else ['/'])
        ++ escape "a/b".data ∧
    "/".data <+: appendSegments "/".data ["folder1".data, "file".data] :=
  C10_join_never_discards "/".data "/Volumes".data "a/b".data
    ["folder1".data, "file".data] (by decide)
